import Mathlib

/-!
Shallow embedding of the core of `filterbank/filterbank2.py` (class
`Filterbank`): frequency-axis setup, DC-bin blanking, flat-file writing,
chunk/blob geometry planning and the chunked-container write loop.

Modelling conventions:
* Python floats are modelled as exact rationals (`ℚ`); numpy integer and
  float samples are likewise modelled as `ℚ`.
* Python 2 integer division (floor) on machine ints is `Int` `/` (`Int.ediv`)
  or `Nat` `/`; Python `%` with a positive modulus is `Int` `%` (`Int.emod`);
  Python `int()` conversion of a float truncates toward zero (`Int.tdiv` of
  numerator by denominator).
* numpy arrays are lists; `np.arange(a, b)` on integers is `rangeInt`;
  basic slices clamp to the array like Python slices with non-negative
  bounds; a negative index wraps once from the end as in Python.
-/

/-- Config constant `MAX_BLOB_MB = 256` (max size of blob in MB). -/
def MAX_BLOB_MB : ℕ := 256

/-- The header fields of a filterbank file that the frequency math reads:
`fch1` (first channel frequency, MHz), `foff` (channel spacing, MHz, signed)
and `nchans` (channel count). -/
structure FilHeader where
  fch1 : ℚ
  foff : ℚ
  nchans : ℕ

/-- Python `int()` applied to a float: truncation toward zero. -/
def pytrunc (q : ℚ) : ℤ := q.num.tdiv q.den

/-- `np.arange(a, b)` on integers: `[a, a+1, ..., b-1]`, empty when `b ≤ a`. -/
def rangeInt (a b : ℤ) : List ℤ :=
  (List.range (b - a).toNat).map (fun k : ℕ => a + (k : ℤ))

/-- The index corresponding to a requested frequency bound in
`Filterbank._setup_freqs`: Python `if f_start:` treats `None` and `0.0` as
falsy (keeping the default), otherwise computes `(f - fch1) / foff`. -/
def boundIdx (dflt : ℚ) (f0 f_delt : ℚ) : Option ℚ → ℚ
  | none => dflt
  | some v => if v = 0 then dflt else (v - f0) / f_delt

/-- Everything `Filterbank._setup_freqs` computes: the frequency axis
`self.freqs`, the raw (float) index pair it returns, the truncated channel
indices, and the file-order index list `i_vals` the axis is generated from. -/
structure FreqSetup where
  freqs : List ℚ
  i_start : ℚ
  i_stop : ℚ
  chan_start_idx : ℤ
  chan_stop_idx : ℤ
  i_vals : List ℤ

/-- `Filterbank._setup_freqs`: resolves the optional frequency bounds to raw
indices, truncates them, generates the arithmetic sequence
`foff * i + fch1` over the file-order index range (swapping the pair when the
raw start exceeds the raw stop), and reverses the result when `foff < 0`. -/
def setup_freqs (h : FilHeader) (f_start f_stop : Option ℚ) : FreqSetup :=
  let f0 := h.fch1
  let f_delt := h.foff
  let i_start := boundIdx 0 f0 f_delt f_start
  let i_stop := boundIdx (h.nchans : ℚ) f0 f_delt f_stop
  let chan_start_idx := pytrunc i_start
  let chan_stop_idx := pytrunc i_stop
  let i_vals :=
    if i_start < i_stop then rangeInt chan_start_idx chan_stop_idx
    else rangeInt chan_stop_idx chan_start_idx
  let freqs := i_vals.map (fun i : ℤ => f_delt * (i : ℚ) + f0)
  ⟨if f_delt < 0 then freqs.reverse else freqs,
   i_start, i_stop, chan_start_idx, chan_stop_idx, i_vals⟩

/-- Insertion step for sorting rationals. -/
def insertQ (x : ℚ) : List ℚ → List ℚ
  | [] => [x]
  | y :: ys => if x ≤ y then x :: y :: ys else y :: insertQ x ys

/-- Insertion sort on rationals (the order `np.median` sorts by). -/
def sortQ (l : List ℚ) : List ℚ := l.foldr insertQ []

/-- `np.median` of a flattened selection: sort, take the middle element for
odd length, the mean of the two middle elements for even length. (numpy
returns nan on an empty input; no use below reaches that case.) -/
def npMedian (l : List ℚ) : ℚ :=
  if (sortQ l).length % 2 = 1 then (sortQ l).getD ((sortQ l).length / 2) 0
  else ((sortQ l).getD ((sortQ l).length / 2 - 1) 0
        + (sortQ l).getD ((sortQ l).length / 2) 0) / 2

/-- Python sequence index: a negative index wraps once from the end. -/
def pyIdx (len : ℕ) (i : ℤ) : ℤ := if i < 0 then i + len else i

/-- Assignment `l[i] = v` with Python index semantics. In `blank_dc` the
index is always in range after at most one wrap, where `List.set` and Python
agree. -/
def pySet (l : List ℚ) (i : ℤ) (v : ℚ) : List ℚ := l.set (pyIdx l.length i).toNat v

/-- Slice `l[a:b]` for the bounds produced by `blank_dc`, which are always
`≥ 0`: drop `a`, keep at most `b - a` elements, clamping at the end of the
list exactly as a Python slice does. -/
def pySlice (l : List ℚ) (a b : ℤ) : List ℚ := (l.drop a.toNat).take (b.toNat - a.toNat)

/-- One iteration of the `blank_dc` loop: with `ss = ii * n_chan_per_coarse`
and `mid` the (possibly negative) DC offset, set
`data[ss + mid] = np.median(data[ss + mid + 1 : ss + mid + 10])`. -/
def blank_dc_step (per : ℕ) (mid : ℤ) (d : List ℚ) (ii : ℕ) : List ℚ :=
  pySet d ((ii * per : ℕ) + mid)
    (npMedian (pySlice d ((ii * per : ℕ) + mid + 1) ((ii * per : ℕ) + mid + 10)))

/-- `Filterbank.blank_dc` on one spectrum: `n_chan_per_coarse` is the floor
quotient `n_chan / n_coarse_chan`, `mid_chan = n_chan_per_coarse / 2 - 1`
(computed in `ℤ`, so it is `-1` when a band has fewer than two channels), and
each coarse band's DC channel is overwritten in order. -/
def blank_dc (data : List ℚ) (n_coarse_chan : ℕ) : List ℚ :=
  (List.range n_coarse_chan).foldl
    (blank_dc_step (data.length / n_coarse_chan)
      (((data.length / n_coarse_chan : ℕ) : ℤ) / 2 - 1)) data

/-- Restatement of `blank_dc_step` with purely natural-number indexing; it
agrees with `blank_dc_step` whenever each coarse band has at least two
channels (`blank_dc_step_eq_stepN` below) and is convenient for induction. -/
def blank_dc_stepN (per : ℕ) (d : List ℚ) (ii : ℕ) : List ℚ :=
  d.set (ii * per + (per / 2 - 1))
    (npMedian ((d.drop (ii * per + (per / 2 - 1) + 1)).take 9))

/-- The DC channel index of band `ii` as the claims about `blank_dc` state
it: `ii * (n_chan / n_coarse_chan) + (n_chan / n_coarse_chan) / 2 - 1`
(natural-number form, meaningful when each band has at least 2 channels). -/
def dcBandIdx (n_chan n_coarse ii : ℕ) : ℕ :=
  ii * (n_chan / n_coarse) + (n_chan / n_coarse) / 2 - 1

/-- Claimed reading of `blank_dc`: every band's DC channel is replaced by the
median of the nine channels immediately following it — which requires those
nine channels to exist inside the array. -/
def blankDCNineClaim (data : List ℚ) (n_coarse : ℕ) : Prop :=
  ∀ ii < n_coarse,
    dcBandIdx data.length n_coarse ii + 10 ≤ data.length ∧
    (blank_dc data n_coarse)[dcBandIdx data.length n_coarse ii]? =
      some (npMedian (pySlice data (dcBandIdx data.length n_coarse ii + 1)
        (dcBandIdx data.length n_coarse ii + 10)))

/-- `Filterbank.write_to_fil`: the header is rewritten from the current
frequency axis (`fch1 = freqs[0]`, `foff = freqs[1] - freqs[0]`,
`nchans = len(freqs)`), and the payload is `self.data[:, ::-1].ravel()` —
the data with axis 1 (the beam axis) reversed, flattened in C order. The
`nbits` branches only change the on-disk sample width, not the sample
sequence, so they are not distinguished here. -/
def write_to_fil (freqs : List ℚ) (data : List (List (List ℚ))) :
    FilHeader × List ℚ :=
  (⟨freqs.getD 0 0, freqs.getD 1 0 - freqs.getD 0 0, freqs.length⟩,
   ((data.map (fun tslice => tslice.reverse)).flatten).flatten)

/-- The payload the spec describes for a frequency-reversed write: the data
with its frequency axis (the innermost axis) reversed, flattened in C
order. -/
def freqReversedRavel (data : List (List (List ℚ))) : List ℚ :=
  ((data.map (fun tslice => tslice.map List.reverse)).flatten).flatten

/-- Does `pat` start the list `l`? -/
def startsW : List Char → List Char → Bool
  | [], _ => true
  | _ :: _, [] => false
  | p :: ps, c :: cs => p == c && startsW ps cs

/-- Python's `pat in s` substring test, on character lists. -/
def hasSub (pat : List Char) : List Char → Bool
  | [] => startsW pat []
  | c :: cs => startsW pat (c :: cs) || hasSub pat cs

/-- Filename marker of high frequency resolution data products. -/
def pat0000 : List Char := ("gpuspec.0000.".toList)

/-- Filename marker of high time resolution data products. -/
def pat0001 : List Char := ("gpuspec.0001.".toList)

/-- Filename marker of intermediate resolution data products. -/
def pat0002 : List Char := ("gpuspec.0002.".toList)

/-- `Filterbank.__get_chunk_dimentions`: a fixed chunk shape per recognised
data-product naming convention; `none` models the `True` sentinel that lets
the container auto-chunk unrecognised products. -/
def get_chunk_dimentions (filename : List Char) : Option (ℕ × ℕ × ℕ) :=
  if hasSub pat0000 filename then some (1, 1, 1048576)
  else if hasSub pat0001 filename then some (512, 1, 2048)
  else if hasSub pat0002 filename then some (10, 1, 65536)
  else none

/-- `Filterbank.__get_blob_dimentions`: the frequency extent is
`min(n_channels_in_file, chunk_freq * MAX_BLOB_MB)` (chunk axis order is
`(time, beam, frequency)`), the time extent is
`chunk_time * MAX_BLOB_MB * chunk_freq / freq_extent` with Python 2 integer
division, and the beam extent is 1. -/
def get_blob_dimentions (chunk_dim : ℕ × ℕ × ℕ) (n_channels_in_file : ℕ) :
    ℕ × ℕ × ℕ :=
  let freq_axis_size := min n_channels_in_file (chunk_dim.2.2 * MAX_BLOB_MB)
  let time_axis_size := chunk_dim.1 * MAX_BLOB_MB * chunk_dim.2.2 / freq_axis_size
  (time_axis_size, 1, freq_axis_size)

/-- Byte size of one blob: product of the three extents times
`nbits / 8` bytes per sample (Python integer division). -/
def blobBytes (dim : ℕ × ℕ × ℕ) (nbits : ℕ) : ℕ :=
  dim.1 * dim.2.1 * dim.2.2 * (nbits / 8)

/-- Destination channel range computed by `Filterbank.__write_to_hdf5_heavy`
for blob `ii`: starting from the selection channel origin advanced by
`ii * blob_freq`, it is reduced mod `n_channels_in_file`; when `foff < 0` the
start becomes `n_channels_in_file - c_start % n_channels_in_file` and the
stop is `blob_freq` BELOW the start, otherwise the stop is `blob_freq` above
it. Returned as `(c_start, c_stop)`. -/
def heavyDestRange (foff : ℚ) (n_channels_in_file : ℕ) (sel_c_start : ℕ)
    (blob_f : ℕ) (ii : ℕ) : ℤ × ℤ :=
  let c_start : ℤ := (sel_c_start + ii * blob_f : ℕ)
  if foff < 0 then
    let c1 : ℤ := (n_channels_in_file : ℤ) - c_start % (n_channels_in_file : ℤ)
    (c1, c1 - (blob_f : ℤ))
  else
    let c1 : ℤ := c_start % (n_channels_in_file : ℤ)
    (c1, c1 + (blob_f : ℤ))

/-- Channel indices selected by the dataset assignment
`dset[t_start:t_stop, 0, c_start:c_stop]`: a step-1 slice covers
`[c_start, c_stop)` and is empty when `c_stop ≤ c_start`. -/
def hdf5WriteIdx (r : ℤ × ℤ) : List ℤ := rangeInt r.1 r.2

/-! ## General helper lemmas -/

theorem pytrunc_natCast (n : ℕ) : pytrunc (n : ℚ) = n := by
  simp [pytrunc]

theorem pytrunc_zero : pytrunc 0 = 0 := by
  simp [pytrunc]

theorem rangeInt_pairwise_lt (a b : ℤ) : List.Pairwise (· < ·) (rangeInt a b) := by
  unfold rangeInt
  rw [List.pairwise_map]
  refine (List.pairwise_lt_range _).imp ?_
  intro x y hxy
  omega

theorem rangeInt_getLast? (a b : ℤ) (m : ℕ) (hm : (b - a).toNat = m + 1) :
    (rangeInt a b).getLast? = some (a + m) := by
  unfold rangeInt
  rw [hm, List.range_succ, List.map_append, List.getLast?_append]
  simp

/-- With no bounds given, `_setup_freqs` generates the arithmetic sequence
over the full file-order channel range `[0, nchans)` and reverses it when
`foff < 0`. -/
theorem setup_freqs_none_freqs (h : FilHeader) :
    (setup_freqs h none none).freqs =
      if h.foff < 0 then
        ((rangeInt 0 h.nchans).map (fun i : ℤ => h.foff * (i : ℚ) + h.fch1)).reverse
      else (rangeInt 0 h.nchans).map (fun i : ℤ => h.foff * (i : ℚ) + h.fch1) := by
  by_cases hn : h.nchans = 0
  · simp [setup_freqs, boundIdx, hn, pytrunc_zero]
  · have hpos : (0 : ℚ) < (h.nchans : ℚ) := by
      exact_mod_cast Nat.pos_of_ne_zero hn
    simp only [setup_freqs, boundIdx, if_pos hpos, pytrunc_natCast, pytrunc_zero]

/-! ## Claim theorems: frequency axis -/

/-- Claim C2: for every header with `foff < 0` and no selection bounds, the
frequency axis produced by `_setup_freqs` is strictly ascending, and its
first element is the minimum of `fch1` and `fch1 + foff * (nchans - 1)`. -/
theorem c2_freq_axis_ascending (h : FilHeader) (hf : h.foff < 0) (hn : 1 ≤ h.nchans) :
    List.Sorted (· < ·) (setup_freqs h none none).freqs ∧
    (setup_freqs h none none).freqs.head? =
      some (min h.fch1 (h.fch1 + h.foff * ((h.nchans : ℚ) - 1))) := by
  rw [setup_freqs_none_freqs, if_pos hf]
  constructor
  · unfold List.Sorted
    rw [List.pairwise_reverse, List.pairwise_map]
    refine (rangeInt_pairwise_lt 0 (h.nchans : ℤ)).imp ?_
    intro x y hxy
    have hcast : (x : ℚ) < (y : ℚ) := by exact_mod_cast hxy
    have := mul_lt_mul_of_neg_left hcast hf
    linarith
  · rw [List.head?_reverse, List.getLast?_map,
      rangeInt_getLast? 0 (h.nchans : ℤ) (h.nchans - 1) (by omega)]
    have h1 : (1 : ℚ) ≤ (h.nchans : ℚ) := by exact_mod_cast hn
    have hle : h.fch1 + h.foff * ((h.nchans : ℚ) - 1) ≤ h.fch1 := by nlinarith
    rw [min_eq_right hle]
    have hcast2 : ((h.nchans - 1 : ℕ) : ℚ) = (h.nchans : ℚ) - 1 := by
      push_cast [hn]
      ring
    simp only [Option.map_some', zero_add, Option.some_inj, Int.cast_natCast, hcast2]
    ring

/-- Witness for `c2_freq_axis_ascending` at the header
`fch1 = 100, foff = -2, nchans = 3`. -/
theorem c2_freq_axis_ascending_witness :
    List.Sorted (· < ·) (setup_freqs ⟨100, -2, 3⟩ none none).freqs ∧
    (setup_freqs ⟨100, -2, 3⟩ none none).freqs.head? =
      some (min (100 : ℚ) (100 + (-2) * (((3 : ℕ) : ℚ) - 1))) :=
  c2_freq_axis_ascending ⟨100, -2, 3⟩ (by norm_num) (by norm_num)

/-- Claim C6, counterexample: with the example header and
`f_start = f_stop = 1419.0`, `_setup_freqs` returns normally with a
zero-length frequency axis — the resolved range contains no index, and no
error of any kind is signalled (the code defines no `EmptySelectionError`). -/
theorem c6_zero_length_axis_cex :
    (setup_freqs ⟨1420, -1/2, 4⟩ (some 1419) (some 1419)).freqs = [] ∧
    ¬ 1 ≤ (setup_freqs ⟨1420, -1/2, 4⟩ (some 1419) (some 1419)).freqs.length := by
  have hfr : (setup_freqs ⟨1420, -1/2, 4⟩ (some 1419) (some 1419)).freqs = [] := by
    simp only [setup_freqs, boundIdx]
    norm_num [pytrunc, rangeInt]
  exact ⟨hfr, by rw [hfr]; simp⟩

/-- Claim C6, amended: whenever (nonzero) `f_start` and `f_stop` coincide and
`foff ≠ 0`, both raw indices coincide, the generated file-order index range
is empty, and `_setup_freqs` returns a zero-length frequency axis without
signalling any error. -/
theorem c6_equal_bounds_empty_axis (h : FilHeader) (fs : ℚ) (hfs : fs ≠ 0)
    (_hfd : h.foff ≠ 0) :
    (setup_freqs h (some fs) (some fs)).freqs = [] := by
  simp only [setup_freqs, boundIdx, if_neg hfs]
  rw [if_neg (lt_irrefl _)]
  simp [rangeInt]

/-- Witness for `c6_equal_bounds_empty_axis` at the header
`fch1 = 10, foff = 2, nchans = 5` with both bounds `7`. -/
theorem c6_equal_bounds_empty_axis_witness :
    (setup_freqs ⟨10, 2, 5⟩ (some 7) (some 7)).freqs = [] :=
  c6_equal_bounds_empty_axis ⟨10, 2, 5⟩ 7 (by norm_num) (by norm_num)

/-- Claim C9: for the header `fch1 = 1420.0, foff = -0.5, nchans = 4`,
`_setup_freqs` with no bounds returns the ascending axis
`[1418.5, 1419.0, 1419.5, 1420.0]`, and with bounds `f_start = 1419.0`,
`f_stop = 1420.0` it truncates the raw indices to `2` and `0` and generates
the file-order (on-disk) channel index range `[0, 2)`, i.e. `i_vals = [0, 1]`. -/
theorem c9_example_header :
    (setup_freqs ⟨1420, -1/2, 4⟩ none none).freqs = [2837/2, 1419, 2839/2, 1420] ∧
    (setup_freqs ⟨1420, -1/2, 4⟩ (some 1419) (some 1420)).chan_start_idx = 2 ∧
    (setup_freqs ⟨1420, -1/2, 4⟩ (some 1419) (some 1420)).chan_stop_idx = 0 ∧
    (setup_freqs ⟨1420, -1/2, 4⟩ (some 1419) (some 1420)).i_vals = [0, 1] := by
  refine ⟨?_, ?_⟩
  · have h04 : rangeInt 0 4 = [0, 1, 2, 3] := by decide
    have hp0 : pytrunc 0 = 0 := pytrunc_zero
    have hp4 : pytrunc 4 = 4 := by simp [pytrunc]
    simp only [setup_freqs, boundIdx]
    norm_num [hp0, hp4, h04]
  · have h02 : rangeInt 0 2 = [0, 1] := by decide
    have hp0 : pytrunc 0 = 0 := pytrunc_zero
    have hp2 : pytrunc 2 = 2 := by simp [pytrunc]
    simp only [setup_freqs, boundIdx]
    norm_num [hp0, hp2, h02]

/-! ## blank_dc lemmas -/

theorem midz_eq (per : ℕ) (hper : 2 ≤ per) :
    ((per : ℤ)) / 2 - 1 = ((per / 2 - 1 : ℕ) : ℤ) := by
  have h2 : ((per / 2 : ℕ) : ℤ) = (per : ℤ) / 2 := Int.ofNat_ediv per 2
  have h1 : 1 ≤ per / 2 := by
    rw [Nat.le_div_iff_mul_le (by norm_num)]
    omega
  rw [← h2, Nat.cast_sub h1]
  norm_num

theorem blank_dc_step_eq_stepN (per : ℕ) (hper : 2 ≤ per) :
    blank_dc_step per ((per : ℤ) / 2 - 1) = blank_dc_stepN per := by
  funext d ii
  unfold blank_dc_step blank_dc_stepN pySet pySlice pyIdx
  rw [midz_eq per hper]
  have hnn : ¬ ((ii * per : ℕ) : ℤ) + ((per / 2 - 1 : ℕ) : ℤ) < 0 := by omega
  rw [if_neg hnn]
  have hA : (((ii * per : ℕ) : ℤ) + ((per / 2 - 1 : ℕ) : ℤ)).toNat
      = ii * per + (per / 2 - 1) := by omega
  have hB : (((ii * per : ℕ) : ℤ) + ((per / 2 - 1 : ℕ) : ℤ) + 1).toNat
      = ii * per + (per / 2 - 1) + 1 := by omega
  have hC : (((ii * per : ℕ) : ℤ) + ((per / 2 - 1 : ℕ) : ℤ) + 10).toNat
      = ii * per + (per / 2 - 1) + 10 := by omega
  rw [hA, hB, hC,
    show ii * per + (per / 2 - 1) + 10 - (ii * per + (per / 2 - 1) + 1) = 9 from by omega]

theorem blank_dc_fold_len (per : ℕ) (mid : ℤ) (l : List ℕ) (d : List ℚ) :
    (l.foldl (blank_dc_step per mid) d).length = d.length := by
  induction l generalizing d with
  | nil => rfl
  | cons x xs ih =>
      rw [List.foldl_cons, ih]
      simp [blank_dc_step, pySet]

theorem dcIdx_add_per_le (per : ℕ) {ii k : ℕ} (h : ii < k) :
    ii * per + (per / 2 - 1) + per ≤ k * per + (per / 2 - 1) := by
  have h1 : ii + 1 ≤ k := h
  have h2 := Nat.mul_le_mul_right per h1
  rw [Nat.succ_mul] at h2
  omega

/-- Main invariant of the `blank_dc` loop when every band has at least two
channels and the bands fit inside the array: the length is preserved, every
channel other than the DC channels keeps its original value, and each DC
channel ends up holding the median of the 9-clamped window of the ORIGINAL
data following it (each band's window starts strictly above every index
written before it, so the sequential in-place writes never feed a median). -/
theorem foldN_spec (data : List ℚ) (per : ℕ) (hper : 2 ≤ per) (k : ℕ)
    (hbound : k * per ≤ data.length) :
    ((List.range k).foldl (blank_dc_stepN per) data).length = data.length ∧
    (∀ j : ℕ, (∀ ii < k, j ≠ ii * per + (per / 2 - 1)) →
      ((List.range k).foldl (blank_dc_stepN per) data)[j]? = data[j]?) ∧
    (∀ ii < k, ((List.range k).foldl (blank_dc_stepN per) data)[ii * per + (per / 2 - 1)]? =
      some (npMedian ((data.drop (ii * per + (per / 2 - 1) + 1)).take 9))) := by
  induction k with
  | zero =>
      refine ⟨rfl, fun j _ => rfl, fun ii hii => absurd hii (by omega)⟩
  | succ k ih =>
      have hbk : k * per ≤ data.length := le_trans (by nlinarith) hbound
      obtain ⟨ihlen, ihframe, ihval⟩ := ih hbk
      set B := (List.range k).foldl (blank_dc_stepN per) data with hB
      have hfold : (List.range (k + 1)).foldl (blank_dc_stepN per) data =
          blank_dc_stepN per B k := by
        rw [List.range_succ, List.foldl_append, List.foldl_cons, List.foldl_nil]
      have hidxlt : k * per + (per / 2 - 1) < data.length := by
        have hlt : per / 2 - 1 < per := by omega
        have h1 : k * per + (per / 2 - 1) < k * per + per := by omega
        have h2 : k * per + per = (k + 1) * per := by ring
        omega
      have hwin : (B.drop (k * per + (per / 2 - 1) + 1)).take 9 =
          (data.drop (k * per + (per / 2 - 1) + 1)).take 9 := by
        apply List.ext_getElem?
        intro i
        rw [List.getElem?_take, List.getElem?_take]
        by_cases hi : i < 9
        · rw [if_pos hi, if_pos hi, List.getElem?_drop, List.getElem?_drop]
          apply ihframe
          intro ii hii
          have := dcIdx_add_per_le per hii
          omega
        · rw [if_neg hi, if_neg hi]
      rw [hfold]
      unfold blank_dc_stepN
      refine ⟨by simpa using ihlen, ?_, ?_⟩
      · intro j hj
        rw [List.getElem?_set_ne (by exact (hj k (by omega)).symm)]
        exact ihframe j (fun ii hii => hj ii (by omega))
      · intro ii hii
        by_cases hik : ii = k
        · subst hik
          rw [hwin, List.getElem?_set_self (by rw [ihlen]; exact hidxlt)]
        · have hiilt : ii < k := by omega
          have hne : k * per + (per / 2 - 1) ≠ ii * per + (per / 2 - 1) := by
            have := dcIdx_add_per_le per hiilt
            omega
          rw [List.getElem?_set_ne hne]
          exact ihval ii hiilt

theorem dcBandIdx_eq (n_chan n ii : ℕ) (hper : 2 ≤ n_chan / n) :
    dcBandIdx n_chan n ii = ii * (n_chan / n) + ((n_chan / n) / 2 - 1) := by
  unfold dcBandIdx
  have h1 : 1 ≤ (n_chan / n) / 2 := by
    rw [Nat.le_div_iff_mul_le (by norm_num)]
    omega
  omega

theorem blank_dc_eq_foldN (data : List ℚ) (n : ℕ) (hper : 2 ≤ data.length / n) :
    blank_dc data n = (List.range n).foldl (blank_dc_stepN (data.length / n)) data := by
  unfold blank_dc
  rw [blank_dc_step_eq_stepN (data.length / n) hper]

theorem pySlice_natCast (l : List ℚ) (a b : ℕ) :
    pySlice l (a : ℤ) (b : ℤ) = (l.drop a).take (b - a) := by
  simp [pySlice]

/-! ## Claim theorems: blank_dc -/

/-- Claim C3, counterexample: on the claim's own instance — 8 channels,
`n_coarse_chan = 2` — the "9 channels immediately following" the DC channel
of band 1 (index 5) do not exist (only 2 remain), so the claimed property is
false; the code instead writes the median of the clamped 2-channel window,
`(6 + 7) / 2 = 13/2`. -/
theorem c3_nine_median_cex :
    ¬ blankDCNineClaim [0, 1, 2, 3, 4, 5, 6, 7] 2 ∧
    (blank_dc [0, 1, 2, 3, 4, 5, 6, 7] 2)[5]? = some (13/2) := by
  constructor
  · intro H
    have h := (H 1 (by norm_num)).1
    have hidx : dcBandIdx ([0, 1, 2, 3, 4, 5, 6, 7] : List ℚ).length 2 1 = 5 := rfl
    have hlen : ([0, 1, 2, 3, 4, 5, 6, 7] : List ℚ).length = 8 := rfl
    rw [hidx, hlen] at h
    omega
  · have key : blank_dc [0, 1, 2, 3, 4, 5, 6, 7] 2 =
        [0, npMedian [2, 3, 4, 5, 6, 7], 2, 3, 4, npMedian [6, 7], 6, 7] := rfl
    rw [key]
    have e4 : npMedian [6, 7] = 13/2 := by norm_num [npMedian, sortQ, insertQ]
    simp [e4]

/-- Claim C3, amended: when `n_coarse_chan` evenly divides `n_chan` and each
band has at least 2 channels, `blank_dc` writes, at each band's DC index
`ii * per + per / 2 - 1`, the median of the window `[idx + 1, idx + 10)` of
the original data clamped to the array end (the full 9 channels only when
they exist). -/
theorem c3_clamped_median (data : List ℚ) (n : ℕ)
    (hdvd : n * (data.length / n) = data.length) (hper : 2 ≤ data.length / n) :
    ∀ ii < n, (blank_dc data n)[dcBandIdx data.length n ii]? =
      some (npMedian (pySlice data ((dcBandIdx data.length n ii + 1 : ℕ) : ℤ)
        ((dcBandIdx data.length n ii + 10 : ℕ) : ℤ))) := by
  intro ii hii
  rw [blank_dc_eq_foldN data n hper, pySlice_natCast,
    show dcBandIdx data.length n ii + 10 - (dcBandIdx data.length n ii + 1) = 9 from by omega,
    dcBandIdx_eq data.length n ii hper]
  exact (foldN_spec data (data.length / n) hper n (le_of_eq hdvd)).2.2 ii hii

/-- Witness for `c3_clamped_median` on 8 channels with `n_coarse_chan = 2`,
band 1 (the DC index evaluates to 5). -/
theorem c3_clamped_median_witness :
    (blank_dc [0, 1, 2, 3, 4, 5, 6, 7] 2)[dcBandIdx
        ([0, 1, 2, 3, 4, 5, 6, 7] : List ℚ).length 2 1]? =
      some (npMedian (pySlice [0, 1, 2, 3, 4, 5, 6, 7]
        ((dcBandIdx ([0, 1, 2, 3, 4, 5, 6, 7] : List ℚ).length 2 1 + 1 : ℕ) : ℤ)
        ((dcBandIdx ([0, 1, 2, 3, 4, 5, 6, 7] : List ℚ).length 2 1 + 10 : ℕ) : ℤ))) :=
  c3_clamped_median [0, 1, 2, 3, 4, 5, 6, 7] 2 (by norm_num) (by norm_num) 1 (by norm_num)

/-- Claim C10, counterexample: with 2 channels and `n_coarse_chan = 2` each
band has a single channel, the DC offset is `-1`, and Python's negative
indexing makes band 0 overwrite the LAST channel: channel 1 changes from 20
to 15 even though 1 is not of the claimed form
`ii * (n_chan / n_coarse) + (n_chan / n_coarse) / 2 - 1` (which yields `-1`
and `0` here). -/
theorem c10_dc_wraparound_cex :
    (blank_dc [10, 20] 2)[1]? = some 15 ∧
    ([10, 20] : List ℚ)[1]? = some 20 ∧
    ((1 : ℤ) ≠ 0 * ((2 : ℤ) / 2) + ((2 : ℤ) / 2) / 2 - 1 ∧
     (1 : ℤ) ≠ 1 * ((2 : ℤ) / 2) + ((2 : ℤ) / 2) / 2 - 1) := by
  refine ⟨?_, by simp, by decide⟩
  have key : blank_dc [10, 20] 2 =
      [npMedian [npMedian [10, 20]], npMedian [10, 20]] := rfl
  rw [key]
  have e : npMedian [10, 20] = 15 := by norm_num [npMedian, sortQ, insertQ]
  simp [e]

/-- Claim C10, amended: `blank_dc` always preserves the array's shape, and
whenever each coarse band has at least 2 channels (so no DC index is
negative), every channel whose index is not of the form
`ii * (n_chan / n_coarse) + (n_chan / n_coarse) / 2 - 1` keeps exactly its
prior value. -/
theorem c10_blank_dc_frame (data : List ℚ) (n : ℕ) :
    (blank_dc data n).length = data.length ∧
    (2 ≤ data.length / n →
      ∀ j : ℕ, (∀ ii < n, j ≠ dcBandIdx data.length n ii) →
        (blank_dc data n)[j]? = data[j]?) := by
  constructor
  · unfold blank_dc
    exact blank_dc_fold_len _ _ _ _
  · intro hper j hj
    rw [blank_dc_eq_foldN data n hper]
    refine (foldN_spec data (data.length / n) hper n (Nat.mul_div_le data.length n)).2.1 j ?_
    intro ii hii
    rw [← dcBandIdx_eq data.length n ii hper]
    exact hj ii hii

/-- Witness for `c10_blank_dc_frame` on `[1, 2, 3, 4]` with one coarse band:
only channel 1 is the DC bin, so channel 3 is untouched. -/
theorem c10_blank_dc_frame_witness :
    (blank_dc [1, 2, 3, 4] 1).length = 4 ∧ (blank_dc [1, 2, 3, 4] 1)[3]? = some 4 := by
  constructor
  · exact (c10_blank_dc_frame [1, 2, 3, 4] 1).1
  · have hj : ∀ ii < 1, (3 : ℕ) ≠ dcBandIdx ([1, 2, 3, 4] : List ℚ).length 1 ii := by
      intro ii hii
      interval_cases ii
      norm_num [dcBandIdx]
    have h := (c10_blank_dc_frame [1, 2, 3, 4] 1).2 (by norm_num) 3 hj
    simpa using h

/-! ## write_to_fil and geometry lemmas -/

theorem rangeInt_length (a b : ℤ) : (rangeInt a b).length = (b - a).toNat := by
  simp [rangeInt]

theorem rangeInt_getElem? (a b : ℤ) (j : ℕ) (hj : j < (b - a).toNat) :
    (rangeInt a b)[j]? = some (a + (j : ℤ)) := by
  unfold rangeInt
  rw [List.getElem?_map, List.getElem?_range hj]
  rfl

theorem setup_freqs_ex1420 :
    (setup_freqs ⟨1420, -1/2, 4⟩ none none).freqs = [2837/2, 1419, 2839/2, 1420] := by
  have h04 : rangeInt 0 4 = [0, 1, 2, 3] := by decide
  have hp0 : pytrunc 0 = 0 := pytrunc_zero
  have hp4 : pytrunc 4 = 4 := by simp [pytrunc]
  simp only [setup_freqs, boundIdx]
  norm_num [hp0, hp4, h04]

/-! ## Claim theorems: write_to_fil -/

/-- Claim C7, counterexample: at a write-time state whose frequency axis is
descending (`foff = freqs[1] - freqs[0] = -1 < 0` after the header rewrite),
`write_to_fil` still emits the sample data unreversed — `[3, 7]`, not the
frequency-reversed `[7, 3]` the claim requires; the code's `[:, ::-1]`
reverses the beam axis, never the frequency axis. -/
theorem c7_beam_axis_reversal_cex :
    (write_to_fil [2, 1] [[[3, 7]]]).1.foff = -1 ∧
    (write_to_fil [2, 1] [[[3, 7]]]).2 = [3, 7] ∧
    freqReversedRavel [[[3, 7]]] = [7, 3] ∧
    (write_to_fil [2, 1] [[[3, 7]]]).2 ≠ freqReversedRavel [[[3, 7]]] := by
  refine ⟨by norm_num [write_to_fil], by norm_num [write_to_fil],
    by norm_num [freqReversedRavel], ?_⟩
  norm_num [write_to_fil, freqReversedRavel]

/-- Claim C7, amended: `write_to_fil` applies its reversal to axis 1 (the
beam axis) unconditionally; since the beam extent is at most one, the payload
equals the data raveled in unreversed frequency order, whatever the sign of
`foff`. -/
theorem c7_no_freq_reversal (freqs : List ℚ) (data : List (List (List ℚ)))
    (hbeam : ∀ t ∈ data, t.length ≤ 1) :
    (write_to_fil freqs data).2 = data.flatten.flatten := by
  unfold write_to_fil
  simp only
  have hmap : data.map (fun tslice => tslice.reverse) = data := by
    conv_rhs => rw [← List.map_id data]
    apply List.map_congr_left
    intro t ht
    cases t with
    | nil => rfl
    | cons a tl =>
        cases tl with
        | nil => rfl
        | cons b tl2 => exact absurd (hbeam _ ht) (by simp)
  rw [hmap]

/-- Witness for `c7_no_freq_reversal` on two time slices of one beam each. -/
theorem c7_no_freq_reversal_witness :
    (write_to_fil [5, 9] [[[1, 2]], [[3, 4]]]).2 =
      ([[[1, 2]], [[3, 4]]] : List (List (List ℚ))).flatten.flatten :=
  c7_no_freq_reversal [5, 9] [[[1, 2]], [[3, 4]]] (by
    intro t ht
    fin_cases ht <;> simp)

/-- Claim C8, counterexample: for a file opened with
`fch1 = 1420, foff = -0.5, nchans = 4`, writing to the flat format rewrites
the header — `fch1` becomes `1418.5 ≠ 1420` and `foff` becomes
`0.5 ≠ -0.5` — so the header is not immutable after construction. -/
theorem c8_header_mutation_cex :
    (write_to_fil (setup_freqs ⟨1420, -1/2, 4⟩ none none).freqs [[[0, 0, 0, 0]]]).1.fch1
      = 2837/2 ∧
    (write_to_fil (setup_freqs ⟨1420, -1/2, 4⟩ none none).freqs [[[0, 0, 0, 0]]]).1.foff
      = 1/2 ∧
    ((2837 : ℚ)/2 ≠ 1420 ∧ (1 : ℚ)/2 ≠ -1/2) := by
  rw [setup_freqs_ex1420]
  refine ⟨by norm_num [write_to_fil], by norm_num [write_to_fil], by norm_num, by norm_num⟩

/-- Claim C8, amended: the header is immutable under the read and blanking
operations (which never assign header fields), but `write_to_fil` rewrites
it from the current frequency axis: for a fully read `foff < 0` file, `fch1`
becomes `fch1 + foff * (nchans - 1)`, `foff` flips sign, and `nchans` is
re-derived from the axis length. -/
theorem c8_write_to_fil_rewrites_header (h : FilHeader) (data : List (List (List ℚ)))
    (hf : h.foff < 0) (hn : 2 ≤ h.nchans) :
    (write_to_fil (setup_freqs h none none).freqs data).1.fch1
      = h.fch1 + h.foff * ((h.nchans : ℚ) - 1) ∧
    (write_to_fil (setup_freqs h none none).freqs data).1.foff = - h.foff ∧
    (write_to_fil (setup_freqs h none none).freqs data).1.nchans = h.nchans := by
  have hfr : (setup_freqs h none none).freqs =
      ((rangeInt 0 (h.nchans : ℤ)).map (fun i : ℤ => h.foff * (i : ℚ) + h.fch1)).reverse := by
    rw [setup_freqs_none_freqs, if_pos hf]
  set L := (rangeInt 0 (h.nchans : ℤ)).map (fun i : ℤ => h.foff * (i : ℚ) + h.fch1) with hL
  have hlen : L.length = h.nchans := by
    rw [hL, List.length_map, rangeInt_length]
    omega
  have hg0 : L.reverse[0]? = some (h.foff * ((h.nchans - 1 : ℕ) : ℚ) + h.fch1) := by
    rw [List.getElem?_reverse (by omega : 0 < L.length), hL, List.getElem?_map]
    rw [List.length_map, rangeInt_length]
    rw [rangeInt_getElem? 0 (h.nchans : ℤ) _ (by omega)]
    simp
  have hg1 : L.reverse[1]? = some (h.foff * ((h.nchans - 2 : ℕ) : ℚ) + h.fch1) := by
    rw [List.getElem?_reverse (by omega : 1 < L.length), hL, List.getElem?_map]
    rw [List.length_map, rangeInt_length]
    rw [show ((h.nchans : ℤ) - 0).toNat - 1 - 1 = h.nchans - 2 from by omega]
    rw [rangeInt_getElem? 0 (h.nchans : ℤ) _ (by omega)]
    simp
  unfold write_to_fil
  rw [hfr]
  simp only [List.getD_eq_getElem?_getD, hg0, hg1, Option.getD_some, List.length_reverse, hlen]
  have h1n : 1 ≤ h.nchans := by omega
  have hc1 : ((h.nchans - 1 : ℕ) : ℚ) = (h.nchans : ℚ) - 1 := by
    push_cast [h1n]
    ring
  have hc2 : ((h.nchans - 2 : ℕ) : ℚ) = (h.nchans : ℚ) - 2 := by
    push_cast [hn]
    ring
  refine ⟨?_, ?_, trivial⟩
  · rw [hc1]; ring
  · rw [hc1, hc2]; ring

/-- Witness for `c8_write_to_fil_rewrites_header` at the header
`fch1 = 100, foff = -2, nchans = 3`. -/
theorem c8_write_to_fil_rewrites_header_witness :
    (write_to_fil (setup_freqs ⟨100, -2, 3⟩ none none).freqs [[[0, 0, 0]]]).1.fch1
      = 100 + (-2) * (((3 : ℕ) : ℚ) - 1) ∧
    (write_to_fil (setup_freqs ⟨100, -2, 3⟩ none none).freqs [[[0, 0, 0]]]).1.foff = -(-2) ∧
    (write_to_fil (setup_freqs ⟨100, -2, 3⟩ none none).freqs [[[0, 0, 0]]]).1.nchans = 3 :=
  c8_write_to_fil_rewrites_header ⟨100, -2, 3⟩ [[[0, 0, 0]]] (by norm_num) (by norm_num)

/-! ## Claim theorems: blob and chunk geometry -/

/-- Claim C4: for every chunk shape `(ct, cb, cf)` and positive channel
count, the blob shape is `(ct * 256 * cf / freq_extent, 1, freq_extent)` with
`freq_extent = min(n_channels_in_file, cf * 256)`, truncating integer
division, and beam extent exactly 1. -/
theorem c4_blob_shape_formula (ct cb cf n : ℕ) (_hcf : 1 ≤ cf) (_hn : 1 ≤ n) :
    get_blob_dimentions (ct, cb, cf) n =
      (ct * 256 * cf / min n (cf * 256), 1, min n (cf * 256)) := rfl

/-- Witness for `c4_blob_shape_formula` at chunk `(2, 1, 3)` and 5 channels. -/
theorem c4_blob_shape_formula_witness :
    get_blob_dimentions (2, 1, 3) 5 = (2 * 256 * 3 / min 5 (3 * 256), 1, min 5 (3 * 256)) :=
  c4_blob_shape_formula 2 1 3 5 (by norm_num) (by norm_num)

/-- Claim C5, counterexample: the high-frequency-resolution chunk preset
`(1, 1, 1048576)` with `n_channels_in_file = 2^28` yields the blob shape
`(1, 1, 2^28)`; at `nbits = 32` that blob occupies `2^30` bytes — four times
the 256 MiB (`2^28`-byte) ceiling. -/
theorem c5_blob_budget_cex :
    get_chunk_dimentions (("a.gpuspec.0000.fil".toList)) = some (1, 1, 1048576) ∧
    get_blob_dimentions (1, 1, 1048576) 268435456 = (1, 1, 268435456) ∧
    blobBytes (1, 1, 268435456) 32 = 1073741824 ∧
    256 * 1024 * 1024 < 1073741824 := by
  refine ⟨by decide, by decide, by decide, by decide⟩

/-- Claim C5, amended: for every chunk shape actually produced by the chunk
planner and every positive channel count, the blob's byte size at
`nbits = 8` (one byte per sample) is at most 256 MiB; the planner bounds the
SAMPLE count (`ct * 256 * cf ≤ 2^28` for every preset), so for 16- and
32-bit samples the byte size may exceed the ceiling by the sample width. -/
theorem c5_blob_bytes_nbits8 (filename : List Char) (cd : ℕ × ℕ × ℕ) (n : ℕ)
    (hcd : get_chunk_dimentions filename = some cd) (_hn : 1 ≤ n) :
    blobBytes (get_blob_dimentions cd n) 8 ≤ 256 * 1024 * 1024 := by
  have main : ∀ ct cf : ℕ, ct * 256 * cf ≤ 268435456 →
      blobBytes (get_blob_dimentions (ct, 1, cf) n) 8 ≤ 256 * 1024 * 1024 := by
    intro ct cf hbound
    unfold get_blob_dimentions blobBytes MAX_BLOB_MB
    simp only [mul_one]
    calc ct * 256 * cf / min n (cf * 256) * (min n (cf * 256)) * (8 / 8)
        = ct * 256 * cf / min n (cf * 256) * (min n (cf * 256)) := by norm_num
      _ ≤ ct * 256 * cf := Nat.div_mul_le_self _ _
      _ ≤ 268435456 := hbound
      _ = 256 * 1024 * 1024 := by norm_num
  unfold get_chunk_dimentions at hcd
  split_ifs at hcd
  · injection hcd with hcd
    subst hcd
    exact main 1 1048576 (by norm_num)
  · injection hcd with hcd
    subst hcd
    exact main 512 2048 (by norm_num)
  · injection hcd with hcd
    subst hcd
    exact main 10 65536 (by norm_num)

/-- Witness for `c5_blob_bytes_nbits8` on an intermediate-resolution product
name with 3 channels. -/
theorem c5_blob_bytes_nbits8_witness :
    blobBytes (get_blob_dimentions (10, 1, 65536) 3) 8 ≤ 256 * 1024 * 1024 :=
  c5_blob_bytes_nbits8 (("b.gpuspec.0002.x".toList)) (10, 1, 65536) 3 (by decide) (by decide)

/-! ## Claim theorems: chunked-container write loop -/

/-- Claim C1: evaluation at the failing input `foff = -0.5`,
`n_channels_in_file = 8`, blob frequency extent 4, blob `ii = 0`, selection
channel origin 0. The claimed destination start `8 - 0 % 8 = 8` is indeed
computed — but the stop is `8 - 4 = 4`, so the assignment target
`dset[..., 8:4]` selects NO channels while the intended reversed region
`[4, 8)` holds exactly the blob's 4 channels: the blob is not written in
reversed channel order (nor at all), contradicting the loop's own
"Reverse array if frequency axis is flipped" comment. -/
theorem c1_heavy_write_empty_slice :
    heavyDestRange (-1/2) 8 0 4 0 = (8, 4) ∧
    hdf5WriteIdx (8, 4) = [] ∧
    (hdf5WriteIdx (4, 8)).length = 4 := by
  refine ⟨?_, by decide, by decide⟩
  unfold heavyDestRange
  rw [if_pos (by norm_num : (-1/2 : ℚ) < 0)]
  norm_num
